import Mathlib

/-!
Shallow embedding of the `embed` 16-bit dual-stack virtual machine
(`src/embed.rs` of howerj/rust-embed-forth) and proofs about it.

Machine words are embedded as `Nat` with explicit `% 0x10000` where the Rust
code performs wrapping 16-bit arithmetic.  Rust operations that can raise a
host fault (a panic) are embedded as `Option`-returning functions where
`none` models the panic: checked `+`/`-` overflow on `u16` (the behavior of
the crate's own test profile) and out-of-bounds indexing of the
`[u16; CORE_SIZE]` core array (a fault in every profile).
-/

/-- Total number of cells addressable by the VM (`CORE_SIZE` in the source). -/
def CORE_SIZE : Nat := 0x8000

/-- Starting value of the variable stack pointer (`SP0`). -/
def SP0 : Nat := 0x2200

/-- Starting value of the return stack pointer (`RP0`). -/
def RP0 : Nat := 0x7fff

/-- Reinterpret a 16-bit unsigned value as a signed value (`as i16` on a
`u16`, then widened: the value of the sign extension). -/
def toInt16 (x : Nat) : Int :=
  if x < 0x8000 then (x : Int) else (x : Int) - 0x10000

/-- Truncate a signed value back to a 16-bit unsigned word (`as u16` on an
`i16`). -/
def toU16 (x : Int) : Nat :=
  (x.emod 0x10000).toNat

/-- Read `m[i]` on the core array: a panic (`none`) when the index is out of
bounds, mirroring Rust's checked slice indexing. -/
def rd (m : Nat → Nat) (i : Nat) : Option Nat :=
  if i < CORE_SIZE then some (m i) else none

/-- Write `m[i] = v` on the core array, with the same bounds panic as `rd`. -/
def wr (m : Nat → Nat) (i v : Nat) : Option (Nat → Nat) :=
  if i < CORE_SIZE then some (Function.update m i v) else none

/-- Checked `u16` addition: Rust `a + b`, which panics on overflow in the
profile the crate's tests run under. -/
def cadd (a b : Nat) : Option Nat :=
  if a + b < 0x10000 then some (a + b) else none

/-- Checked `u16` subtraction: Rust `a - b`, which panics on underflow in the
profile the crate's tests run under. -/
def csub (a b : Nat) : Option Nat :=
  if b ≤ a then some (a - b) else none

/-- The stack-delta lookup table `DELTA: [u16; 4] = [0, 1, 0xfffe, 0xffff]`. -/
def DELTA (i : Nat) : Nat :=
  if i = 0 then 0 else if i = 1 then 1 else if i = 2 then 0xfffe else 0xffff

/-- Outcome of one `Write::write` call on a byte sink: `ok n` is `Ok(n)`
(`n` bytes accepted), `err` is `Err(_)`. -/
inductive WriteRes
  | ok (n : Nat)
  | err

/-- Outcome of one `Read::read` call on a one-byte buffer: `ok n b` is
`Ok(n)` with `b` the byte placed in the buffer, `err` is `Err(_)`. -/
inductive ReadRes
  | ok (n : Nat) (b : Nat)
  | err

/-- `fputc`: writes one byte `t` to the sink.  Returns the result value and
the bytes that actually reached the sink; `none` models the panic of the
source's `.unwrap()` on an `Err` from `write`. -/
def fputc (o : WriteRes) (t : Nat) : Option (Nat × List Nat) :=
  match o with
  | .err => none
  | .ok n => some (if n = 1 then (t, [t]) else (0xffff, []))

/-- `fgetc`: reads one byte.  Returns the 16-bit result (`0xffff` on EOF,
the byte otherwise); `none` models the panic of the source's `.unwrap()` on
an `Err` from `read`. -/
def fgetc (o : ReadRes) : Option Nat :=
  match o with
  | .err => none
  | .ok n b => some (if n = 1 then b else 0xffff)

/-- The loop body of `save_block`, iterating `n` cells starting at cell `i`:
reads `core[i]` (bounds-checked), writes low byte then high byte to the
sink.  `err j = true` means the sink errors on the write of cell `j`.
Returns the Rust-level result (`none` inside the pair is Rust's `None`) and
the bytes written before any error; the outer `none` is a host panic. -/
def save_cells (core : Nat → Nat) (err : Nat → Bool) : Nat → Nat → Option (Option Nat × List Nat)
  | _, 0 => some (some 0, [])
  | i, n + 1 =>
    if i < CORE_SIZE then
      if err i then some (none, [])
      else
        (save_cells core err (i + 1) n).map
          (fun p => (p.1, (core i % 0x100) :: ((core i >>> 8) % 0x100) :: p.2))
    else none

/-- `save_block`: range-checks `start + length ≤ 0xffff` then writes the
cells with indices in `start..length` (the `length` acts as an end index). -/
def save_block (core : Nat → Nat) (err : Nat → Bool) (start length : Nat) :
    Option (Option Nat × List Nat) :=
  if start + length > 0xffff then some (none, [])
  else save_cells core err start (length - start)

/-- The byte serialization of `n` cells starting at cell `i`: each cell as
`cell as u8` then `(cell >> 8) as u8` (little endian). -/
def byteSer (core : Nat → Nat) : Nat → Nat → List Nat
  | _, 0 => []
  | i, n + 1 => (core i % 0x100) :: ((core i >>> 8) % 0x100) :: byteSer core (i + 1) n

/-- One `fgetc` on the simple byte-list input model used by `load`:
`0xffff` at end of stream, otherwise the next byte. -/
def getb : List Nat → Nat × List Nat
  | [] => (0xffff, [])
  | b :: r => (b, r)

/-- The `while i < CORE_SIZE` loop of `load`: read a `(lo, hi)` byte pair,
stop on a `0xffff` from either read, else store `lo | (hi << 8)` at cell `i`
and continue.  `fuel` is `CORE_SIZE - i`. -/
def load_go : List Nat → Nat → Nat → (Nat → Nat) → (Nat → Nat) × Nat
  | _, i, 0, core => (core, i)
  | inp, i, fuel + 1, core =>
    let lo := (getb inp).1
    let hi := (getb (getb inp).2).1
    if lo = 0xffff ∨ hi = 0xffff then (core, i)
    else load_go (getb (getb inp).2).2 (i + 1) fuel
      (Function.update core i (lo ||| ((hi <<< 8) % 0x10000)))

/-- The cell values a byte stream denotes: consecutive `(lo, hi)` pairs
combined as `lo | (hi << 8)`; a trailing lone byte denotes nothing. -/
def cells : List Nat → List Nat
  | lo :: hi :: r => (lo ||| ((hi <<< 8) % 0x10000)) :: cells r
  | _ => []

/-- The virtual machine: the four registers and the 0x8000-cell core. -/
structure VM where
  pc : Nat
  rp : Nat
  sp : Nat
  t : Nat
  core : Nat → Nat

/-- `reset`: registers back to their defaults, the core untouched. -/
def VM.reset (vm : VM) : VM :=
  { vm with pc := 0, rp := RP0, sp := SP0, t := 0 }

/-- `load`: reset the registers, then fill consecutive cells from the byte
stream.  Returns the updated machine and the count of cells loaded. -/
def VM.load (vm : VM) (inp : List Nat) : VM × Nat :=
  let vm0 := vm.reset
  let r := load_go inp 0 CORE_SIZE vm0.core
  ({ vm0 with core := r.1 }, r.2)

/-- `save`: write the whole core through `save_block 0 CORE_SIZE`. -/
def VM.save (vm : VM) (err : Nat → Bool) : Option (Option Nat × List Nat) :=
  save_block vm.core err 0 CORE_SIZE

/-- The register-and-working-copy state of the `run` loop: the four register
locals of `run` plus `m`, the local copy of the core that `let mut m =
self.core` makes. -/
structure RunState where
  pc : Nat
  rp : Nat
  sp : Nat
  t : Nat
  m : Nat → Nat

/-- The I/O environment of `run`: pending outcomes of the input stream's
`read` calls, scripted outcomes for the output sink's `write` calls (an
exhausted script means every further write fully succeeds), the bytes the
output sink has accepted, and the byte contents written by each opcode-22
block-save file creation. -/
structure World where
  input : List ReadRes
  outScript : List WriteRes
  output : List Nat
  blockLog : List (List Nat)

/-- Append the bytes of an opcode-22 file creation, if one happened, to the
block log. -/
def logBlock (w : World) (ob : Option (List Nat)) : World :=
  match ob with
  | none => w
  | some bs => { w with blockLog := w.blockLog ++ [bs] }

/-- `save_file`: opcode 22's wrapper.  `cfg = none` models a missing block
path, `some false` a failed file creation (both return `0xffff` and touch no
file); `some true` creates the file and runs `save_block` **on the stored
core `core0`**, turning Rust `None` into `0xffff`.  The bytes written to the
created file are returned for logging; `none` is a host panic. -/
def save_file (core0 : Nat → Nat) (cfg : Option Bool) (start length : Nat) :
    Option (Nat × Option (List Nat)) :=
  match cfg with
  | none => some (0xffff, none)
  | some false => some (0xffff, none)
  | some true =>
    match save_block core0 (fun _ => false) start length with
    | none => none
    | some (none, bs) => some (0xffff, some bs)
    | some (some r, bs) => some (r, some bs)

/-- Result of the `match alu` arm of an ALU instruction: `halted` for op 27's
`break`, otherwise the values of the locals `tp, t, n, sp, rp, pc, m` and
the world after the arm. -/
inductive AluRes
  | halted
  | mid (tp t n sp rp pc : Nat) (m : Nat → Nat) (w : World)

/-- The `match alu` of `run`, operating on the locals as the source does.
`none` is a host panic (bounds, checked arithmetic, oversized shift, signed
division overflow, or an `Err` from a stream). -/
def alu_exec (core0 : Nat → Nat) (cfg : Option Bool) (alu tp t n sp rp pc : Nat)
    (m : Nat → Nat) (w : World) : Option AluRes :=
  if alu = 0 then some (.mid tp t n sp rp pc m w)
  else if alu = 1 then some (.mid n t n sp rp pc m w)
  else if alu = 2 then
    match rd m rp with
    | none => none
    | some v => some (.mid v t n sp rp pc m w)
  else if alu = 3 then
    match rd m (t >>> 1) with
    | none => none
    | some v => some (.mid v t n sp rp pc m w)
  else if alu = 4 then
    match wr m (t >>> 1) n with
    | none => none
    | some m1 =>
      match csub sp 1 with
      | none => none
      | some sp1 =>
        match rd m1 sp1 with
        | none => none
        | some v => some (.mid v t n sp1 rp pc m1 w)
  else if alu = 5 then
    match wr m sp ((t + n) % 0x10000) with
    | none => none
    | some m1 =>
      some (.mid (((t + n) >>> 16) % 0x10000) t ((t + n) % 0x10000) sp rp pc m1 w)
  else if alu = 6 then
    match wr m sp ((t * n) % 0x10000) with
    | none => none
    | some m1 =>
      some (.mid (((t * n) >>> 16) % 0x10000) t ((t * n) % 0x10000) sp rp pc m1 w)
  else if alu = 7 then some (.mid (tp &&& n) t n sp rp pc m w)
  else if alu = 8 then some (.mid (tp ||| n) t n sp rp pc m w)
  else if alu = 9 then some (.mid (tp ^^^ n) t n sp rp pc m w)
  else if alu = 10 then some (.mid (t ^^^ 0xffff) t n sp rp pc m w)
  else if alu = 11 then some (.mid ((tp + 0xffff) % 0x10000) t n sp rp pc m w)
  else if alu = 12 then some (.mid (if t = 0 then 0xffff else 0) t n sp rp pc m w)
  else if alu = 13 then some (.mid (if t = n then 0xffff else 0) t n sp rp pc m w)
  else if alu = 14 then some (.mid (if n < t then 0xffff else 0) t n sp rp pc m w)
  else if alu = 15 then some (.mid (if toInt16 n < toInt16 t then 0xffff else 0) t n sp rp pc m w)
  else if alu = 16 then (if t < 16 then some (.mid (n >>> t) t n sp rp pc m w) else none)
  else if alu = 17 then (if t < 16 then some (.mid ((n <<< t) % 0x10000) t n sp rp pc m w) else none)
  else if alu = 18 then some (.mid ((sp <<< 1) % 0x10000) t n sp rp pc m w)
  else if alu = 19 then some (.mid ((rp <<< 1) % 0x10000) t n sp rp pc m w)
  else if alu = 20 then some (.mid tp t n (t >>> 1) rp pc m w)
  else if alu = 21 then some (.mid n t n sp (t >>> 1) pc m w)
  else if alu = 22 then
    match save_file core0 cfg (n >>> 1) ((t + 1) >>> 1) with
    | none => none
    | some (v, ob) => some (.mid v t n sp rp pc m (logBlock w ob))
  else if alu = 23 then
    match w.outScript with
    | [] => some (.mid (t % 0x100) t n sp rp pc m { w with output := w.output ++ [t % 0x100] })
    | o :: rest =>
      match fputc o (t % 0x100) with
      | none => none
      | some vb =>
        some (.mid vb.1 t n sp rp pc m { w with outScript := rest, output := w.output ++ vb.2 })
  else if alu = 24 then
    match w.input with
    | [] => some (.mid 0xffff t n sp rp pc m w)
    | o :: rest =>
      match fgetc o with
      | none => none
      | some v => some (.mid v t n sp rp pc m { w with input := rest })
  else if alu = 25 then
    (if t ≠ 0 then some (.mid (n / t) (n % t) (n % t) sp rp pc m w)
     else some (.mid 10 t n sp rp 1 m w))
  else if alu = 26 then
    (if t ≠ 0 then
      (if toInt16 n = -0x8000 ∧ toInt16 t = -1 then none
       else
        some (.mid (toU16 (Int.tdiv (toInt16 n) (toInt16 t)))
          (toU16 (Int.tmod (toInt16 n) (toInt16 t)))
          (toU16 (Int.tmod (toInt16 n) (toInt16 t))) sp rp pc m w))
     else some (.mid 10 t n sp rp 1 m w))
  else if alu = 27 then some .halted
  else some (.mid tp t n sp rp pc m w)

/-- Steps 4 to 9 of the ALU cycle: wrapping SP/RP delta application, the
`N→T` override, the `T→R` and `T→N` writes of the (old) `t` local, and the
final `t := tp`. -/
def alu_finish (inst tp t n sp rp pc : Nat) (m : Nat → Nat) : Option RunState :=
  let sp2 := (sp + DELTA (inst &&& 0x3)) % 0x10000
  let rp2 := (rp + (0x10000 - DELTA ((inst >>> 2) &&& 0x3))) % 0x10000
  let tp2 := if inst &&& 0x20 = 0x20 then n else tp
  match (if inst &&& 0x40 = 0x40 then wr m rp2 t else some m) with
  | none => none
  | some m1 =>
    match (if inst &&& 0x80 = 0x80 then wr m1 sp2 t else some m1) with
    | none => none
    | some m2 => some ⟨pc, rp2, sp2, tp2, m2⟩

/-- Result of one iteration of the `'eval` loop: either it continues, or op
27 broke out of the loop carrying the current register locals. -/
inductive StepRes
  | cont (s : RunState) (w : World)
  | halted (pc rp sp t : Nat) (w : World)

/-- The world carried by a step result. -/
def StepRes.world : StepRes → World
  | .cont _ w => w
  | .halted _ _ _ _ w => w

/-- One iteration of the `'eval` loop of `run`: fetch `m[pc]`, classify by
the top three bits, execute.  `none` is a host panic. -/
def step (core0 : Nat → Nat) (cfg : Option Bool) (s : RunState) (w : World) : Option StepRes :=
  match rd s.m s.pc with
  | none => none
  | some inst =>
    if inst &&& 0x8000 = 0x8000 then
      match cadd s.sp 1 with
      | none => none
      | some sp1 =>
        match wr s.m sp1 s.t with
        | none => none
        | some m1 => some (.cont ⟨s.pc + 1, s.rp, sp1, inst &&& 0x7fff, m1⟩ w)
    else if inst &&& 0xe000 = 0x6000 then
      match rd s.m s.sp with
      | none => none
      | some n =>
        match (if inst &&& 0x10 = 0x10 then Option.map (fun x => x >>> 1) (rd s.m s.rp)
               else some (s.pc + 1)) with
        | none => none
        | some pc2 =>
          match alu_exec core0 cfg ((inst >>> 8) &&& 0x1f) s.t s.t n s.sp s.rp pc2 s.m w with
          | none => none
          | some .halted => some (.halted pc2 s.rp s.sp s.t w)
          | some (.mid tp t n sp rp pc m w1) =>
            match alu_finish inst tp t n sp rp pc m with
            | none => none
            | some s1 => some (.cont s1 w1)
    else if inst &&& 0xe000 = 0x4000 then
      match csub s.rp 1 with
      | none => none
      | some rp1 =>
        match wr s.m rp1 (((s.pc + 1) <<< 1) % 0x10000) with
        | none => none
        | some m1 => some (.cont ⟨inst &&& 0x1fff, rp1, s.sp, s.t, m1⟩ w)
    else if inst &&& 0xe000 = 0x2000 then
      match rd s.m s.sp with
      | none => none
      | some t1 =>
        match csub s.sp 1 with
        | none => none
        | some sp1 =>
          some (.cont ⟨(if s.t = 0 then inst &&& 0x1fff else s.pc + 1), s.rp, sp1, t1, s.m⟩ w)
    else
      some (.cont ⟨inst &&& 0x1fff, s.rp, s.sp, s.t, s.m⟩ w)

/-- Result of running the `'eval` loop under a fuel bound: a host panic, the
fuel running out, or op 27 halting with the final register locals. -/
inductive LoopRes
  | panic
  | timeout (s : RunState) (w : World)
  | halted (pc rp sp t : Nat) (w : World)

/-- The `'eval` loop, iterated at most `fuel` times. -/
def runLoop (core0 : Nat → Nat) (cfg : Option Bool) : Nat → RunState → World → LoopRes
  | 0, s, w => .timeout s w
  | fuel + 1, s, w =>
    match step core0 cfg s w with
    | none => .panic
    | some (.halted pc rp sp t w1) => .halted pc rp sp t w1
    | some (.cont s1 w1) => runLoop core0 cfg fuel s1 w1

/-- Result of `run`: a host panic, a fuel timeout, or a normal return with
the updated machine, the final world and the `i32` return value. -/
inductive RunOut
  | panic
  | timeout (s : RunState) (w : World)
  | done (vm : VM) (w : World) (ret : Int)

/-- `run`: copies the registers and the core into locals (`let mut m =
self.core` copies the array), executes the loop, and on halt writes back
**only** the registers — the stored `core` field keeps its pre-call value —
and returns `(t as i16) as i32`. -/
def VM.run (vm : VM) (cfg : Option Bool) (input : List ReadRes)
    (outScript : List WriteRes) (fuel : Nat) : RunOut :=
  match runLoop vm.core cfg fuel ⟨vm.pc, vm.rp, vm.sp, vm.t, vm.core⟩
      ⟨input, outScript, [], []⟩ with
  | .panic => .panic
  | .timeout s w => .timeout s w
  | .halted pc rp sp t w => .done ⟨pc, rp, sp, t, vm.core⟩ w (toInt16 t)

/-- Claim C3: putc and getc do NOT surface every stream failure in-band.
EOF and a short write do return `0xffff`, and a successful call returns the
byte in the low eight bits; but an `Err` from the underlying stream makes
`fputc`/`fgetc` panic through `.unwrap()` — a host fault crossing the VM
boundary — rather than return `0xffff`. -/
theorem fputc_fgetc_err_panics :
    fputc WriteRes.err 0x41 = none ∧
    fgetc ReadRes.err = none ∧
    fputc (WriteRes.ok 1) 0x41 = some (0x41, [0x41]) ∧
    fputc (WriteRes.ok 0) 0x41 = some (0xffff, []) ∧
    fgetc (ReadRes.ok 0 0) = some 0xffff ∧
    fgetc (ReadRes.ok 1 0x42) = some 0x42 :=
  ⟨rfl, rfl, rfl, rfl, rfl, rfl⟩

/-- Claim C6, counterexample: `load` does not zero trailing cells.  Loading
an empty stream (k = 0 complete cells) into a machine whose cells hold
0xaaaa loads 0 cells, yet trailing cell 0 still reads 0xaaaa, not 0. -/
theorem load_trailing_cell_not_zero :
    (VM.load ⟨7, 7, 7, 7, fun _ => 0xaaaa⟩ []).2 = 0 ∧
    (VM.load ⟨7, 7, 7, 7, fun _ => 0xaaaa⟩ []).1.core 0 = 0xaaaa ∧
    (0xaaaa : Nat) ≠ 0 :=
  ⟨rfl, rfl, by decide⟩


/-- Inversion for a successful bounds-checked read. -/
theorem rd_some {m : Nat → Nat} {i v : Nat} (h : rd m i = some v) :
    v = m i ∧ i < CORE_SIZE := by
  by_cases hi : i < CORE_SIZE
  · rw [rd, if_pos hi] at h
    exact ⟨(Option.some.inj h).symm, hi⟩
  · rw [rd, if_neg hi] at h
    cases h

/-- Inversion for a successful bounds-checked write. -/
theorem wr_some {m m1 : Nat → Nat} {i v : Nat} (h : wr m i v = some m1) :
    m1 = Function.update m i v ∧ i < CORE_SIZE := by
  by_cases hi : i < CORE_SIZE
  · rw [wr, if_pos hi] at h
    exact ⟨(Option.some.inj h).symm, hi⟩
  · rw [wr, if_neg hi] at h
    cases h

/-- Inversion for a successful checked subtraction. -/
theorem csub_some {a b c : Nat} (h : csub a b = some c) : c = a - b ∧ b ≤ a := by
  by_cases hb : b ≤ a
  · rw [csub, if_pos hb] at h
    exact ⟨(Option.some.inj h).symm, hb⟩
  · rw [csub, if_neg hb] at h
    cases h

/-- Inversion for a successful checked addition. -/
theorem cadd_some {a b c : Nat} (h : cadd a b = some c) : c = a + b ∧ a + b < 0x10000 := by
  by_cases hb : a + b < 0x10000
  · rw [cadd, if_pos hb] at h
    exact ⟨(Option.some.inj h).symm, hb⟩
  · rw [cadd, if_neg hb] at h
    cases h

/-- Narrow a known masked value to a smaller mask: if `x &&& a = v` and
`b = a &&& b` then `x &&& b = v &&& b`. -/
theorem and_mask_narrow {x a v : Nat} (b : Nat) (h : x &&& a = v) (hb : b = a &&& b) :
    x &&& b = v &&& b := by
  conv_lhs => rw [hb, ← Nat.and_assoc, h]

/-- Claim C2, counterexample: the call-push `rp -= 1` at `RP = 0` does not
wrap; it raises a host fault.  (Under checked arithmetic the decrement
itself panics; with wrapping arithmetic the instruction would instead index
`core[0xffff]`, out of bounds for the 0x8000-cell core, which panics in
every build profile.) -/
theorem call_push_at_rp_zero_faults :
    step (fun _ => 0) none ⟨0, 0, 0x100, 5, fun _ => 0x4000⟩ ⟨[], [], [], []⟩ = none := by
  rfl

/-- Claim C2, amended: the SP/RP adjustments made by the ALU delta-application
step (lines using `wrapping_add`/`wrapping_sub`) do wrap modulo 2^16 without
any fault — shown here for an ALU word with op 0 and no flag bits, whose
whole effect is the two wrapping delta applications. -/
theorem alu_delta_wraps (core0 : Nat → Nat) (cfg : Option Bool) (s : RunState) (w : World)
    (hpc : s.pc < CORE_SIZE) (hsp : s.sp < CORE_SIZE)
    (hfam : s.m s.pc &&& 0xe000 = 0x6000)
    (hop : (s.m s.pc >>> 8) &&& 0x1f = 0)
    (hfl : s.m s.pc &&& 0xf0 = 0) :
    step core0 cfg s w = some (.cont ⟨s.pc + 1,
      (s.rp + (0x10000 - DELTA ((s.m s.pc >>> 2) &&& 0x3))) % 0x10000,
      (s.sp + DELTA (s.m s.pc &&& 0x3)) % 0x10000, s.t, s.m⟩ w) := by
  have h8 : s.m s.pc &&& 0x8000 = 0 := by
    rw [and_mask_narrow 0x8000 hfam (by decide)]; decide
  have h4 : s.m s.pc &&& 0x10 = 0 := by
    rw [and_mask_narrow 0x10 hfl (by decide)]; decide
  have h5 : s.m s.pc &&& 0x20 = 0 := by
    rw [and_mask_narrow 0x20 hfl (by decide)]; decide
  have h6 : s.m s.pc &&& 0x40 = 0 := by
    rw [and_mask_narrow 0x40 hfl (by decide)]; decide
  have h7 : s.m s.pc &&& 0x80 = 0 := by
    rw [and_mask_narrow 0x80 hfl (by decide)]; decide
  rw [step, rd, if_pos hpc]
  simp only [h8, hfam, h4, h5, h6, h7, hop]
  norm_num [rd, if_pos hsp, alu_exec, alu_finish, h5, h6, h7]

/-- Witness for `alu_delta_wraps`: an ALU word with SP-delta −1 and RP-delta
+1 executed at `SP = RP = 0` wraps both pointers to 0xffff without fault. -/
theorem alu_delta_wraps_witness :
    (0 : Nat) < CORE_SIZE ∧ ((0x6007 : Nat) &&& 0xe000 = 0x6000) ∧
    step (fun _ => 0) none ⟨0, 0, 0, 5, fun _ => 0x6007⟩ ⟨[], [], [], []⟩ =
      some (.cont ⟨1, 0xffff, 0xffff, 5, fun _ => 0x6007⟩ ⟨[], [], [], []⟩) :=
  ⟨by decide, by decide,
    alu_delta_wraps (fun _ => 0) none ⟨0, 0, 0, 5, fun _ => 0x6007⟩ ⟨[], [], [], []⟩
      (by decide) (by decide) (by decide) (by decide) (by decide)⟩

/-- Claim C8: a conditional-branch instruction sets PC to `inst & 0x1fff`
when `T = 0` and to `PC + 1` otherwise, and pops the variable stack
unconditionally: the new T is the old `core[SP]` and the new SP is the old
SP minus one, whether or not the branch was taken. -/
theorem zero_branch_pops (core0 : Nat → Nat) (cfg : Option Bool) (s : RunState) (w : World)
    (s1 : RunState) (w1 : World)
    (hfam : s.m s.pc &&& 0xe000 = 0x2000)
    (h : step core0 cfg s w = some (.cont s1 w1)) :
    s1.pc = (if s.t = 0 then s.m s.pc &&& 0x1fff else s.pc + 1) ∧
    s1.t = s.m s.sp ∧ s1.sp = s.sp - 1 ∧ s1.rp = s.rp ∧ s1.m = s.m ∧ w1 = w := by
  rw [step] at h
  cases hrd : rd s.m s.pc with
  | none => rw [hrd] at h; cases h
  | some inst =>
    obtain ⟨hiv, hpc⟩ := rd_some hrd
    subst hiv
    rw [hrd] at h
    have h8 : s.m s.pc &&& 0x8000 = 0 := by
      rw [and_mask_narrow 0x8000 hfam (by decide)]; decide
    simp only [h8, hfam] at h
    norm_num at h
    cases hrd2 : rd s.m s.sp with
    | none => rw [hrd2] at h; cases h
    | some t1 =>
      obtain ⟨ht1, hsp⟩ := rd_some hrd2
      subst ht1
      rw [hrd2] at h
      cases hcs : csub s.sp 1 with
      | none => rw [hcs] at h; cases h
      | some sp1 =>
        obtain ⟨hsp1, hle⟩ := csub_some hcs
        rw [hcs] at h
        simp only [Option.some.injEq, StepRes.cont.injEq] at h
        obtain ⟨hs, hw⟩ := h
        subst hsp1
        cases hs
        cases hw
        exact ⟨rfl, rfl, rfl, rfl, rfl, rfl⟩

/-- Witness for `zero_branch_pops`: an untaken conditional branch (`T = 7`)
still pops the stack. -/
theorem zero_branch_pops_witness :
    ((fun i => if i = 0 then 0x2005 else 9) 0 &&& 0xe000 : Nat) = 0x2000 ∧
    ((1 : Nat) = (if (7 : Nat) = 0 then ((fun i => if i = 0 then 0x2005 else 9) 0 &&& 0x1fff : Nat) else 0 + 1) ∧
     (9 : Nat) = (fun i => if i = 0 then 0x2005 else 9) 4 ∧ (3 : Nat) = 4 - 1 ∧
     (3 : Nat) = 3 ∧ (fun i => if i = 0 then 0x2005 else 9) = (fun i => if i = 0 then 0x2005 else 9) ∧
     (⟨[], [], [], []⟩ : World) = ⟨[], [], [], []⟩) :=
  ⟨by decide,
    zero_branch_pops (fun _ => 0) none ⟨0, 3, 4, 7, fun i => if i = 0 then 0x2005 else 9⟩
      ⟨[], [], [], []⟩ ⟨1, 3, 3, 9, fun i => if i = 0 then 0x2005 else 9⟩ ⟨[], [], [], []⟩
      (by decide) rfl⟩


/-- Inversion of a successful step on an ALU-family instruction: the
second-of-stack read and the next-PC computation succeeded, and the result
came either from op 27's `break` or from the `match alu` arm followed by
steps 4 to 9. -/
theorem step_alu_inv {core0 : Nat → Nat} {cfg : Option Bool} {s : RunState} {w : World}
    {res : StepRes}
    (hfam : s.m s.pc &&& 0xe000 = 0x6000)
    (h : step core0 cfg s w = some res) :
    s.pc < CORE_SIZE ∧ s.sp < CORE_SIZE ∧
    ∃ pc2,
      (if s.m s.pc &&& 0x10 = 0x10 then Option.map (fun x => x >>> 1) (rd s.m s.rp)
       else some (s.pc + 1)) = some pc2 ∧
      ((alu_exec core0 cfg ((s.m s.pc >>> 8) &&& 0x1f) s.t s.t (s.m s.sp) s.sp s.rp pc2 s.m w =
          some .halted ∧ res = .halted pc2 s.rp s.sp s.t w) ∨
       (∃ tp t n sp rp pc m w1 s1,
         alu_exec core0 cfg ((s.m s.pc >>> 8) &&& 0x1f) s.t s.t (s.m s.sp) s.sp s.rp pc2 s.m w =
           some (.mid tp t n sp rp pc m w1) ∧
         alu_finish (s.m s.pc) tp t n sp rp pc m = some s1 ∧ res = .cont s1 w1)) := by
  rw [step] at h
  cases hrd : rd s.m s.pc with
  | none => rw [hrd] at h; cases h
  | some inst =>
    obtain ⟨hiv, hpc⟩ := rd_some hrd
    subst hiv
    rw [hrd] at h
    have h8 : s.m s.pc &&& 0x8000 = 0 := by
      rw [and_mask_narrow 0x8000 hfam (by decide)]; decide
    simp only [h8, hfam] at h
    norm_num at h
    cases hn : rd s.m s.sp with
    | none => rw [hn] at h; cases h
    | some n0 =>
      obtain ⟨hn0, hsp⟩ := rd_some hn
      subst hn0
      simp only [hn] at h
      refine ⟨hpc, hsp, ?_⟩
      cases hpc2 : (if s.m s.pc &&& 0x10 = 0x10 then Option.map (fun x => x >>> 1) (rd s.m s.rp)
                   else some (s.pc + 1)) with
      | none => simp only [hpc2] at h; cases h
      | some pc2 =>
        simp only [hpc2] at h
        refine ⟨pc2, rfl, ?_⟩
        cases hae : alu_exec core0 cfg ((s.m s.pc >>> 8) &&& 0x1f) s.t s.t (s.m s.sp) s.sp s.rp
            pc2 s.m w with
        | none => simp only [hae] at h; cases h
        | some r =>
          simp only [hae] at h
          cases r with
          | halted => exact Or.inl ⟨rfl, (Option.some.inj h).symm⟩
          | mid tp t n sp rp pc m w1 =>
            cases haf : alu_finish (s.m s.pc) tp t n sp rp pc m with
            | none => simp only [haf] at h; cases h
            | some s1 =>
              simp only [haf] at h
              exact Or.inr ⟨tp, t, n, sp, rp, pc, m, w1, s1, rfl, haf, (Option.some.inj h).symm⟩

/-- Ops 25 and 26 executed with `T = 0`: the in-band trap arm sets the
pending result to 10 and the next PC to 1, leaving the other locals
alone. -/
theorem alu_exec_trap {core0 : Nat → Nat} {cfg : Option Bool} {alu tp t n sp rp pc : Nat}
    {m : Nat → Nat} {w : World}
    (h25 : alu = 25 ∨ alu = 26) (ht : t = 0) :
    alu_exec core0 cfg alu tp t n sp rp pc m w = some (.mid 10 t n sp rp 1 m w) := by
  subst ht
  rcases h25 with h | h <;> subst h <;> simp [alu_exec]

/-- Inversion of steps 4 to 9: what the delta applications, the flag writes
and the final `t := tp` produce. -/
theorem alu_finish_inv {inst tp t n sp rp pc : Nat} {m : Nat → Nat} {s1 : RunState}
    (h : alu_finish inst tp t n sp rp pc m = some s1) :
    s1.pc = pc ∧
    s1.sp = (sp + DELTA (inst &&& 0x3)) % 0x10000 ∧
    s1.rp = (rp + (0x10000 - DELTA ((inst >>> 2) &&& 0x3))) % 0x10000 ∧
    s1.t = (if inst &&& 0x20 = 0x20 then n else tp) ∧
    (inst &&& 0x40 = 0x40 → s1.m s1.rp = t) ∧
    (inst &&& 0x80 = 0x80 → s1.m s1.sp = t) ∧
    (¬ inst &&& 0x40 = 0x40 → ¬ inst &&& 0x80 = 0x80 → s1.m = m) := by
  by_cases h40 : inst &&& 0x40 = 0x40 <;> by_cases h80 : inst &&& 0x80 = 0x80
  · simp only [alu_finish, if_pos h40, if_pos h80] at h
    cases hw1 : wr m ((rp + (0x10000 - DELTA ((inst >>> 2) &&& 0x3))) % 0x10000) t with
    | none => rw [hw1] at h; cases h
    | some m1 =>
      simp only [hw1] at h
      cases hw2 : wr m1 ((sp + DELTA (inst &&& 0x3)) % 0x10000) t with
      | none => rw [hw2] at h; cases h
      | some m2 =>
        simp only [hw2] at h
        cases Option.some.inj h
        obtain ⟨hm1e, _⟩ := wr_some hw1
        obtain ⟨hm2e, _⟩ := wr_some hw2
        subst hm1e hm2e
        refine ⟨rfl, rfl, rfl, rfl, fun _ => ?_, fun _ => ?_, fun hc _ => absurd h40 hc⟩
        · simp only [Function.update_apply]
          split <;> simp
        · simp
  · simp only [alu_finish, if_pos h40, if_neg h80] at h
    cases hw1 : wr m ((rp + (0x10000 - DELTA ((inst >>> 2) &&& 0x3))) % 0x10000) t with
    | none => rw [hw1] at h; cases h
    | some m1 =>
      simp only [hw1] at h
      cases Option.some.inj h
      obtain ⟨hm1e, _⟩ := wr_some hw1
      subst hm1e
      exact ⟨rfl, rfl, rfl, rfl, fun _ => by simp, fun hc => absurd hc h80,
        fun hc _ => absurd h40 hc⟩
  · simp only [alu_finish, if_neg h40, if_pos h80] at h
    cases hw2 : wr m ((sp + DELTA (inst &&& 0x3)) % 0x10000) t with
    | none => rw [hw2] at h; cases h
    | some m2 =>
      simp only [hw2] at h
      cases Option.some.inj h
      obtain ⟨hm2e, _⟩ := wr_some hw2
      subst hm2e
      exact ⟨rfl, rfl, rfl, rfl, fun hc => absurd hc h40, fun _ => by simp,
        fun _ hc => absurd h80 hc⟩
  · simp only [alu_finish, if_neg h40, if_neg h80] at h
    cases Option.some.inj h
    exact ⟨rfl, rfl, rfl, rfl, fun hc => absurd hc h40, fun hc => absurd hc h80,
      fun _ _ => rfl⟩

/-- Claim C4: an op-25 (or op-26) instruction executed with `T = 0` traps
in-band: the final PC is 1, steps 4 to 9 still apply (the wrapping SP/RP
delta applications and the `T→R`/`T→N` writes of the old T), and the final
T is 10 unless the overriding `N→T` flag is set, in which case it is the
old N. -/
theorem divmod_zero_traps (core0 : Nat → Nat) (cfg : Option Bool) (s : RunState) (w : World)
    (s1 : RunState) (w1 : World)
    (hfam : s.m s.pc &&& 0xe000 = 0x6000)
    (hop : (s.m s.pc >>> 8) &&& 0x1f = 25 ∨ (s.m s.pc >>> 8) &&& 0x1f = 26)
    (ht : s.t = 0)
    (h : step core0 cfg s w = some (.cont s1 w1)) :
    s1.pc = 1 ∧
    s1.sp = (s.sp + DELTA (s.m s.pc &&& 0x3)) % 0x10000 ∧
    s1.rp = (s.rp + (0x10000 - DELTA ((s.m s.pc >>> 2) &&& 0x3))) % 0x10000 ∧
    (s.m s.pc &&& 0x40 = 0x40 → s1.m s1.rp = s.t) ∧
    (s.m s.pc &&& 0x80 = 0x80 → s1.m s1.sp = s.t) ∧
    s1.t = (if s.m s.pc &&& 0x20 = 0x20 then s.m s.sp else 10) := by
  obtain ⟨hpc, hsp, pc2, hpc2, hcase⟩ := step_alu_inv hfam h
  rcases hcase with ⟨hae, hres⟩ | ⟨tp, t, n, sp, rp, pc, m, w2, s2, hae, haf, hres⟩
  · simp at hres
  · rw [alu_exec_trap hop ht] at hae
    cases Option.some.inj hae
    cases hres
    obtain ⟨hppc, hpsp, hprp, hpt, hw40, hw80, _⟩ := alu_finish_inv haf
    exact ⟨hppc, hpsp, hprp, hw40, hw80, hpt⟩

/-- Witness for `divmod_zero_traps`: `0x7900` (op 25, no flags, zero
deltas) executed with `T = 0` lands on PC 1 with T = 10. -/
theorem divmod_zero_traps_witness :
    ((0x7900 : Nat) &&& 0xe000 = 0x6000) ∧ (((0x7900 : Nat) >>> 8) &&& 0x1f = 25) ∧
    ((1 : Nat) = 1 ∧
     (0x100 : Nat) = (0x100 + DELTA (0x7900 &&& 0x3)) % 0x10000 ∧
     (0x200 : Nat) = (0x200 + (0x10000 - DELTA ((0x7900 >>> 2) &&& 0x3))) % 0x10000 ∧
     ((0x7900 : Nat) &&& 0x40 = 0x40 → (5 : Nat) = 0) ∧
     ((0x7900 : Nat) &&& 0x80 = 0x80 → (5 : Nat) = 0) ∧
     (10 : Nat) = (if (0x7900 : Nat) &&& 0x20 = 0x20 then (5 : Nat) else 10)) := by
  refine ⟨by decide, by decide, ?_⟩
  have h := divmod_zero_traps (fun _ => 0) none
    ⟨0, 0x200, 0x100, 0, fun i => if i = 0 then 0x7900 else 5⟩ ⟨[], [], [], []⟩
    ⟨1, 0x200, 0x100, 10, fun i => if i = 0 then 0x7900 else 5⟩ ⟨[], [], [], []⟩
    (by decide) (Or.inl (by decide)) rfl rfl
  exact h

set_option maxHeartbeats 2000000 in
/-- Every ALU op arm that does not modify the locals `t` and `n`
(i.e. every op except 5 and 6, and except a nonzero-divisor op 25/26)
hands them to steps 4 to 9 unchanged. -/
theorem alu_exec_preserves_tn {core0 : Nat → Nat} {cfg : Option Bool}
    {alu tp t n sp rp pc : Nat} {m : Nat → Nat} {w : World}
    {tp1 t1 n1 sp1 rp1 pc1 : Nat} {m1 : Nat → Nat} {w1 : World}
    (halu : alu < 32) (h5 : alu ≠ 5) (h6 : alu ≠ 6)
    (h2526 : alu = 25 ∨ alu = 26 → t = 0)
    (h : alu_exec core0 cfg alu tp t n sp rp pc m w =
      some (.mid tp1 t1 n1 sp1 rp1 pc1 m1 w1)) :
    t1 = t ∧ n1 = n := by
  interval_cases alu <;>
  first
  | exact absurd rfl h5
  | exact absurd rfl h6
  | (rw [alu_exec_trap (Or.inl rfl) (h2526 (Or.inl rfl))] at h
     cases Option.some.inj h
     exact ⟨rfl, rfl⟩)
  | (rw [alu_exec_trap (Or.inr rfl) (h2526 (Or.inr rfl))] at h
     cases Option.some.inj h
     exact ⟨rfl, rfl⟩)
  | (unfold alu_exec at h
     norm_num at h
     repeat' split at h
     all_goals try cases h
     all_goals first
       | exact ⟨rfl, rfl⟩
       | simp_all)

/-- Claim C5: for an ALU word with both `T→N` (bit 7) and `N→T` (bit 5) set
whose op leaves N unmodified, the new T is the old `core[SP]` captured at
step 1, and the cell at the post-delta SP holds the pre-instruction T. -/
theorem alu_order_pins (core0 : Nat → Nat) (cfg : Option Bool) (s : RunState) (w : World)
    (s1 : RunState) (w1 : World)
    (hfam : s.m s.pc &&& 0xe000 = 0x6000)
    (hb7 : s.m s.pc &&& 0x80 = 0x80)
    (hb5 : s.m s.pc &&& 0x20 = 0x20)
    (hn5 : (s.m s.pc >>> 8) &&& 0x1f ≠ 5)
    (hn6 : (s.m s.pc >>> 8) &&& 0x1f ≠ 6)
    (h2526 : ((s.m s.pc >>> 8) &&& 0x1f = 25 ∨ (s.m s.pc >>> 8) &&& 0x1f = 26) → s.t = 0)
    (h : step core0 cfg s w = some (.cont s1 w1)) :
    s1.t = s.m s.sp ∧ s1.m s1.sp = s.t := by
  obtain ⟨hpc, hsp, pc2, hpc2, hcase⟩ := step_alu_inv hfam h
  rcases hcase with ⟨hae, hres⟩ | ⟨tp, t, n, sp, rp, pc, m, w2, s2, hae, haf, hres⟩
  · simp at hres
  · have halu : (s.m s.pc >>> 8) &&& 0x1f < 32 := Nat.lt_succ_of_le Nat.and_le_right
    obtain ⟨ht1, hn1⟩ := alu_exec_preserves_tn halu hn5 hn6 h2526 hae
    cases hres
    obtain ⟨_, hpsp, _, hpt, _, hw80, _⟩ := alu_finish_inv haf
    constructor
    · rw [hpt, if_pos hb5, hn1]
    · rw [hw80 hb7, ht1]

/-- Witness for `alu_order_pins`: instruction `0x60a0` (op 0, `T→N` and
`N→T` set) swaps T with the second of stack. -/
theorem alu_order_pins_witness :
    ((0x60a0 : Nat) &&& 0x80 = 0x80) ∧ ((0x60a0 : Nat) &&& 0x20 = 0x20) ∧
    ((9 : Nat) = (fun i => if i = 0 then 0x60a0 else 9) 0x100 ∧
     Function.update (fun i => if i = 0 then 0x60a0 else 9) 0x100 7 0x100 = 7) := by
  refine ⟨by decide, by decide, ?_⟩
  exact alu_order_pins (fun _ => 0) none
    ⟨0, 0x200, 0x100, 7, fun i => if i = 0 then 0x60a0 else 9⟩ ⟨[], [], [], []⟩
    ⟨1, 0x200, 0x100, 9, Function.update (fun i => if i = 0 then 0x60a0 else 9) 0x100 7⟩
    ⟨[], [], [], []⟩
    (by decide) (by decide) (by decide) (by decide) (by decide) (fun hc => by revert hc; decide) rfl

/-- Evaluation form of `rd` on an in-bounds index. -/
theorem rd_eq {m : Nat → Nat} {i : Nat} (h : i < CORE_SIZE) : rd m i = some (m i) := by
  rw [rd, if_pos h]

/-- Evaluation form of `wr` on an in-bounds index. -/
theorem wr_eq {m : Nat → Nat} {i v : Nat} (h : i < CORE_SIZE) :
    wr m i v = some (Function.update m i v) := by
  rw [wr, if_pos h]

/-- Evaluation form of `cadd` below the overflow bound. -/
theorem cadd_eq {a b : Nat} (h : a + b < 0x10000) : cadd a b = some (a + b) := by
  rw [cadd, if_pos h]

/-- Op 27 always breaks out of the loop. -/
theorem alu_exec_halt {core0 : Nat → Nat} {cfg : Option Bool} {tp t n sp rp pc : Nat}
    {m : Nat → Nat} {w : World} :
    alu_exec core0 cfg 27 tp t n sp rp pc m w = some .halted := by
  norm_num [alu_exec]

/-- A successful step on a literal instruction: push T, load the low 15
bits into T, advance PC. -/
theorem step_literal {core0 : Nat → Nat} {cfg : Option Bool} {s : RunState} {w : World}
    (hpc : s.pc < CORE_SIZE) (hsp : s.sp + 1 < CORE_SIZE)
    (hlit : s.m s.pc &&& 0x8000 = 0x8000) :
    step core0 cfg s w = some (.cont ⟨s.pc + 1, s.rp, s.sp + 1, s.m s.pc &&& 0x7fff,
      Function.update s.m (s.sp + 1) s.t⟩ w) := by
  rw [step, rd_eq hpc]
  simp only [hlit]
  norm_num
  have hb : s.sp + 1 < 0x10000 := Nat.lt_trans hsp (by norm_num [CORE_SIZE])
  simp only [cadd_eq hb, wr_eq hsp]

/-- A successful step on an op-27 (halt) instruction: the loop breaks with
the registers as they stand after the next-PC computation. -/
theorem step_halt {core0 : Nat → Nat} {cfg : Option Bool} {s : RunState} {w : World}
    (hpc : s.pc < CORE_SIZE) (hsp : s.sp < CORE_SIZE) (hrp : s.rp < CORE_SIZE)
    (hfam : s.m s.pc &&& 0xe000 = 0x6000)
    (hhalt : (s.m s.pc >>> 8) &&& 0x1f = 27) :
    step core0 cfg s w = some (.halted
      (if s.m s.pc &&& 0x10 = 0x10 then s.m s.rp >>> 1 else s.pc + 1) s.rp s.sp s.t w) := by
  have h8 : s.m s.pc &&& 0x8000 = 0 := by
    rw [and_mask_narrow 0x8000 hfam (by decide)]; decide
  rw [step, rd_eq hpc]
  simp only [h8, hfam]
  norm_num
  simp only [rd_eq hsp, hhalt]
  by_cases hb4 : s.m s.pc &&& 0x10 = 0x10
  · simp only [if_pos hb4, rd_eq hrp, Option.map, alu_exec_halt]
  · simp only [if_neg hb4, alu_exec_halt]

/-- Unfolding of one loop iteration. -/
theorem runLoop_succ {core0 : Nat → Nat} {cfg : Option Bool} {fuel : Nat} {s : RunState}
    {w : World} :
    runLoop core0 cfg (fuel + 1) s w =
      match step core0 cfg s w with
      | none => .panic
      | some (.halted pc rp sp t w1) => .halted pc rp sp t w1
      | some (.cont s1 w1) => runLoop core0 cfg fuel s1 w1 := rfl

/-- Claim C9: a program whose executed cycles are exactly a literal followed
by an op-27 halt makes `run` return the sign extension of the 15-bit
literal value, which is never negative; the halt skips steps 4 to 9, so SP,
RP and the core copy are left as the literal push left them. -/
theorem lit_halt_returns (vm : VM) (cfg : Option Bool) (input : List ReadRes)
    (outScript : List WriteRes) (fuel : Nat)
    (hpc : vm.pc + 1 < CORE_SIZE) (hsp : vm.sp + 1 < CORE_SIZE) (hrp : vm.rp < CORE_SIZE)
    (hne : vm.sp + 1 ≠ vm.pc + 1)
    (hlit : vm.core vm.pc &&& 0x8000 = 0x8000)
    (hfam : vm.core (vm.pc + 1) &&& 0xe000 = 0x6000)
    (hhalt : (vm.core (vm.pc + 1) >>> 8) &&& 0x1f = 27) :
    ∃ vm1 w1,
      VM.run vm cfg input outScript (fuel + 2) =
        .done vm1 w1 ((vm.core vm.pc &&& 0x7fff : Nat) : Int) ∧
      vm1.t = vm.core vm.pc &&& 0x7fff ∧ vm1.sp = vm.sp + 1 ∧ vm1.rp = vm.rp ∧
      vm1.core = vm.core ∧ (0 : Int) ≤ ((vm.core vm.pc &&& 0x7fff : Nat) : Int) := by
  set m1 : Nat → Nat := Function.update vm.core (vm.sp + 1) vm.t with hm1
  have hfetch2 : m1 (vm.pc + 1) = vm.core (vm.pc + 1) := Function.update_noteq hne.symm _ _
  have hstep1 : step vm.core cfg ⟨vm.pc, vm.rp, vm.sp, vm.t, vm.core⟩
      ⟨input, outScript, [], []⟩ =
      some (.cont ⟨vm.pc + 1, vm.rp, vm.sp + 1, vm.core vm.pc &&& 0x7fff, m1⟩
        ⟨input, outScript, [], []⟩) :=
    step_literal (Nat.lt_of_succ_lt hpc) hsp hlit
  have hstep2 : step vm.core cfg ⟨vm.pc + 1, vm.rp, vm.sp + 1, vm.core vm.pc &&& 0x7fff, m1⟩
      ⟨input, outScript, [], []⟩ =
      some (.halted (if m1 (vm.pc + 1) &&& 0x10 = 0x10 then m1 vm.rp >>> 1 else vm.pc + 1 + 1)
        vm.rp (vm.sp + 1) (vm.core vm.pc &&& 0x7fff) ⟨input, outScript, [], []⟩) :=
    step_halt hpc hsp hrp
      (by show m1 (vm.pc + 1) &&& 0xe000 = 0x6000
          rw [hfetch2]; exact hfam)
      (by show (m1 (vm.pc + 1) >>> 8) &&& 0x1f = 27
          rw [hfetch2]; exact hhalt)
  refine ⟨⟨(if m1 (vm.pc + 1) &&& 0x10 = 0x10 then m1 vm.rp >>> 1 else vm.pc + 1 + 1),
    vm.rp, vm.sp + 1, vm.core vm.pc &&& 0x7fff, vm.core⟩, ⟨input, outScript, [], []⟩, ?_,
    rfl, rfl, rfl, rfl, Int.natCast_nonneg _⟩
  have hA : runLoop vm.core cfg (fuel + 1 + 1) ⟨vm.pc, vm.rp, vm.sp, vm.t, vm.core⟩
      ⟨input, outScript, [], []⟩ =
      runLoop vm.core cfg (fuel + 1)
        ⟨vm.pc + 1, vm.rp, vm.sp + 1, vm.core vm.pc &&& 0x7fff, m1⟩
        ⟨input, outScript, [], []⟩ := by
    rw [runLoop_succ, hstep1]
  have hB : runLoop vm.core cfg (fuel + 1)
      ⟨vm.pc + 1, vm.rp, vm.sp + 1, vm.core vm.pc &&& 0x7fff, m1⟩
      ⟨input, outScript, [], []⟩ =
      .halted (if m1 (vm.pc + 1) &&& 0x10 = 0x10 then m1 vm.rp >>> 1 else vm.pc + 1 + 1)
        vm.rp (vm.sp + 1) (vm.core vm.pc &&& 0x7fff) ⟨input, outScript, [], []⟩ := by
    rw [runLoop_succ, hstep2]
  simp only [VM.run, hA.trans hB]
  have hb : vm.core vm.pc &&& 0x7fff < 0x8000 := Nat.lt_succ_of_le Nat.and_le_right
  rw [toInt16, if_pos hb]

/-- Witness for `lit_halt_returns`: the program `[LIT(0x7b00), HALT]`
(cells `0xfb00, 0x7b00`) exits with 31488, not a negative value. -/
theorem lit_halt_returns_witness :
    ((0xfb00 : Nat) &&& 0x8000 = 0x8000) ∧ ((0x7b00 : Nat) &&& 0xe000 = 0x6000) ∧
    (((0x7b00 : Nat) >>> 8) &&& 0x1f = 27) ∧
    (∃ vm1 w1,
      VM.run ⟨0, RP0, SP0, 0, fun i => if i = 0 then 0xfb00 else if i = 1 then 0x7b00 else 0⟩
          none [] [] 2 = .done vm1 w1 (31488 : Int) ∧
      vm1.t = 0x7b00 ∧ vm1.sp = SP0 + 1 ∧ vm1.rp = RP0 ∧
      vm1.core = (fun i => if i = 0 then 0xfb00 else if i = 1 then 0x7b00 else 0) ∧
      (0 : Int) ≤ (31488 : Int)) :=
  ⟨by decide, by decide, by decide,
    lit_halt_returns
      ⟨0, RP0, SP0, 0, fun i => if i = 0 then 0xfb00 else if i = 1 then 0x7b00 else 0⟩
      none [] [] 0 (by decide) (by decide) (by decide) (by decide) (by decide) (by decide)
      (by decide)⟩

/-- What `save_file` can do to the created file: either no file was written
(no path, or creation failed), or the written bytes are exactly those of a
`save_block` run over the stored core. -/
theorem save_file_bytes {core0 : Nat → Nat} {cfg : Option Bool} {st ln v : Nat}
    {ob : Option (List Nat)}
    (h : save_file core0 cfg st ln = some (v, ob)) :
    ob = none ∨ ∃ rr bs, save_block core0 (fun _ => false) st ln = some (rr, bs) ∧
      ob = some bs := by
  unfold save_file at h
  cases cfg with
  | none => exact Or.inl (by cases Option.some.inj h; rfl)
  | some b =>
    cases b with
    | false => exact Or.inl (by cases Option.some.inj h; rfl)
    | true =>
      cases hsb : save_block core0 (fun _ => false) st ln with
      | none => rw [hsb] at h; cases h
      | some p =>
        obtain ⟨rr, bs⟩ := p
        simp only [hsb] at h
        cases rr with
        | none => cases Option.some.inj h; exact Or.inr ⟨_, _, rfl, rfl⟩
        | some r0 => cases Option.some.inj h; exact Or.inr ⟨_, _, rfl, rfl⟩

set_option maxHeartbeats 2000000 in
/-- An ALU op arm changes the block log only by appending the bytes of a
`save_block` run over the stored core `core0` (op 22); every other arm
leaves the block log alone. -/
theorem alu_exec_blockLog {core0 : Nat → Nat} {cfg : Option Bool}
    {alu tp t n sp rp pc : Nat} {m : Nat → Nat} {w : World}
    {tp1 t1 n1 sp1 rp1 pc1 : Nat} {m1 : Nat → Nat} {w1 : World}
    (halu : alu < 32)
    (h : alu_exec core0 cfg alu tp t n sp rp pc m w =
      some (.mid tp1 t1 n1 sp1 rp1 pc1 m1 w1)) :
    w1.blockLog = w.blockLog ∨
    ∃ rr st ln bs, save_block core0 (fun _ => false) st ln = some (rr, bs) ∧
      w1.blockLog = w.blockLog ++ [bs] := by
  interval_cases alu <;>
  (unfold alu_exec at h
   norm_num at h
   repeat' split at h
   all_goals try cases h
   all_goals first
     | exact Or.inl rfl
     | (simp_all; done)
     | (rename_i x ob heq
        rcases save_file_bytes heq with hob | ⟨rr, bs, hsb, hob⟩
        · subst hob
          exact Or.inl rfl
        · subst hob
          exact Or.inr ⟨rr, _, _, bs, hsb, rfl⟩))

/-- One loop iteration changes the block log only by appending bytes
serialized by `save_block` from the stored core. -/
theorem step_blockLog {core0 : Nat → Nat} {cfg : Option Bool} {s : RunState} {w : World}
    {res : StepRes}
    (h : step core0 cfg s w = some res) :
    res.world.blockLog = w.blockLog ∨
    ∃ rr st ln bs, save_block core0 (fun _ => false) st ln = some (rr, bs) ∧
      res.world.blockLog = w.blockLog ++ [bs] := by
  rw [step] at h
  cases hrd : rd s.m s.pc with
  | none => rw [hrd] at h; cases h
  | some inst =>
    simp only [hrd] at h
    by_cases hf1 : inst &&& 0x8000 = 0x8000
    · simp only [if_pos hf1] at h
      repeat' split at h
      all_goals cases h
      all_goals exact Or.inl rfl
    · simp only [if_neg hf1] at h
      by_cases hf2 : inst &&& 0xe000 = 0x6000
      · simp only [if_pos hf2] at h
        cases hn : rd s.m s.sp with
        | none => rw [hn] at h; cases h
        | some n0 =>
          simp only [hn] at h
          cases hpc2 : (if inst &&& 0x10 = 0x10 then Option.map (fun x => x >>> 1) (rd s.m s.rp)
                       else some (s.pc + 1)) with
          | none => simp only [hpc2] at h; cases h
          | some pc2 =>
            simp only [hpc2] at h
            cases hae : alu_exec core0 cfg ((inst >>> 8) &&& 0x1f) s.t s.t n0 s.sp s.rp
                pc2 s.m w with
            | none => simp only [hae] at h; cases h
            | some r =>
              simp only [hae] at h
              cases r with
              | halted => cases h; exact Or.inl rfl
              | mid tp t n sp rp pc m w1 =>
                cases haf : alu_finish inst tp t n sp rp pc m with
                | none => simp only [haf] at h; cases h
                | some s1 =>
                  simp only [haf] at h
                  cases h
                  exact alu_exec_blockLog (Nat.lt_succ_of_le Nat.and_le_right) hae
      · simp only [if_neg hf2] at h
        repeat' split at h
        all_goals cases h
        all_goals exact Or.inl rfl

/-- Through any number of loop iterations that end in a halt, every entry
of the final block log was serialized by `save_block` from the stored core
(or was present at entry). -/
theorem runLoop_blockLog {core0 : Nat → Nat} {cfg : Option Bool} :
    ∀ (fuel : Nat) (s : RunState) (w : World) (pc rp sp t : Nat) (w1 : World),
      runLoop core0 cfg fuel s w = .halted pc rp sp t w1 →
      ∀ e ∈ w1.blockLog, e ∈ w.blockLog ∨
        ∃ rr st ln, save_block core0 (fun _ => false) st ln = some (rr, e) := by
  intro fuel
  induction fuel with
  | zero => intro s w pc rp sp t w1 h; cases h
  | succ fl ih =>
    intro s w pc rp sp t w1 h
    rw [runLoop_succ] at h
    cases hs : step core0 cfg s w with
    | none => rw [hs] at h; cases h
    | some res =>
      simp only [hs] at h
      cases res with
      | halted pc0 rp0 sp0 t0 w0 =>
        cases h
        intro e he
        rcases step_blockLog hs with heq | ⟨rr, st, ln, bs, hsb, happ⟩
        · simp only [StepRes.world] at heq
          exact Or.inl (heq ▸ he)
        · simp only [StepRes.world] at happ
          rw [happ] at he
          rcases List.mem_append.mp he with h3 | h4
          · exact Or.inl h3
          · have hbs : e = bs := by simpa using h4
            exact Or.inr ⟨rr, st, ln, hbs ▸ hsb⟩
      | cont s1 w0 =>
        intro e he
        rcases ih s1 w0 pc rp sp t w1 h e he with h1 | h2
        · rcases step_blockLog hs with heq | ⟨rr, st, ln, bs, hsb, happ⟩
          · simp only [StepRes.world] at heq
            exact Or.inl (heq ▸ h1)
          · simp only [StepRes.world] at happ
            rw [happ] at h1
            rcases List.mem_append.mp h1 with h3 | h4
            · exact Or.inl h3
            · have hbs : e = bs := by simpa using h4
              exact Or.inr ⟨rr, st, ln, hbs ▸ hsb⟩
        · exact Or.inr h2

/-- Claim C1: `run` works on a private copy of the core (`let mut m =
self.core` copies the array).  Whenever `run` returns, the stored core is
bit-for-bit what it was before the call — every store the program made went
to the discarded copy, and only the four registers are written back — and
every opcode-22 block save performed during the run serialized the stored
(pre-run) core, not the working copy. -/
theorem run_private_core (vm : VM) (cfg : Option Bool) (input : List ReadRes)
    (outScript : List WriteRes) (fuel : Nat) (vm1 : VM) (w1 : World) (ret : Int)
    (h : VM.run vm cfg input outScript fuel = .done vm1 w1 ret) :
    (∀ i, vm1.core i = vm.core i) ∧
    ∀ e ∈ w1.blockLog, ∃ rr st ln,
      save_block vm.core (fun _ => false) st ln = some (rr, e) := by
  rw [VM.run] at h
  cases hr : runLoop vm.core cfg fuel ⟨vm.pc, vm.rp, vm.sp, vm.t, vm.core⟩
      ⟨input, outScript, [], []⟩ with
  | panic => rw [hr] at h; cases h
  | timeout s w => rw [hr] at h; cases h
  | halted pc rp sp t w =>
    simp only [hr] at h
    cases h
    refine ⟨fun i => rfl, ?_⟩
    intro e he
    rcases runLoop_blockLog fuel ⟨vm.pc, vm.rp, vm.sp, vm.t, vm.core⟩
      ⟨input, outScript, [], []⟩ pc rp sp t w1 hr e he with h1 | h2
    · exact absurd h1 (List.not_mem_nil e)
    · exact h2

/-- Witness for `run_private_core`: a one-instruction halt run returns with
the stored core untouched and an empty block log. -/
theorem run_private_core_witness :
    (∀ i, (fun _ : Nat => 0x7b00) i = (fun _ : Nat => 0x7b00) i) ∧
    ∀ e ∈ (⟨[], [], [], []⟩ : World).blockLog, ∃ rr st ln,
      save_block (fun _ => 0x7b00) (fun _ => false) st ln = some (rr, e) :=
  run_private_core ⟨0, RP0, SP0, 0, fun _ => 0x7b00⟩ none [] [] 1
    ⟨1, RP0, SP0, 0, fun _ => 0x7b00⟩ ⟨[], [], [], []⟩ 0 rfl

/-- Characterization of the `load` loop: on a stream of `2k` or `2k + 1`
bytes, it stores the `k` denoted cells at `i .. i + k`, returns `i + k`,
and leaves every other cell of the target untouched. -/
theorem load_go_spec :
    ∀ (k : Nat) (inp : List Nat) (i fuel : Nat) (core : Nat → Nat),
      (inp.length = 2 * k ∨ inp.length = 2 * k + 1) →
      (∀ b ∈ inp, b < 0x100) →
      k ≤ fuel →
      (load_go inp i fuel core).2 = i + k ∧
      (∀ j, (load_go inp i fuel core).1 j =
        if i ≤ j ∧ j < i + k then (cells inp).getD (j - i) 0 else core j) := by
  intro k
  induction k with
  | zero =>
    intro inp i fuel core hlen hb hf
    have h0 : load_go inp i fuel core = (core, i) := by
      cases fuel with
      | zero => rfl
      | succ fl =>
        cases inp with
        | nil => rfl
        | cons b r =>
          cases r with
          | nil =>
            rw [load_go]
            simp [getb]
          | cons b2 r2 =>
            rcases hlen with hl | hl <;> simp at hl
    rw [h0]
    refine ⟨rfl, fun j => ?_⟩
    have hne : ¬ (i ≤ j ∧ j < i + 0) := by omega
    rw [if_neg hne]
  | succ k ih =>
    intro inp i fuel core hlen hb hf
    cases fuel with
    | zero => omega
    | succ fl =>
      cases inp with
      | nil => rcases hlen with hl | hl <;> simp at hl
      | cons lo r =>
        cases r with
        | nil => rcases hlen with hl | hl <;> (simp at hl; try omega)
        | cons hi rest =>
          have hlo : lo < 0x100 := hb lo (by simp)
          have hhi : hi < 0x100 := hb hi (by simp)
          have hno : ¬ (lo = 0xffff ∨ hi = 0xffff) := by omega
          have hlen2 : rest.length = 2 * k ∨ rest.length = 2 * k + 1 := by
            rcases hlen with hl | hl <;> simp at hl <;> omega
          have hrec := ih rest (i + 1) fl
            (Function.update core i (lo ||| ((hi <<< 8) % 0x10000)))
            hlen2 (fun b hbm => hb b (by simp [hbm])) (by omega)
          have hgo : load_go (lo :: hi :: rest) i (fl + 1) core =
              load_go rest (i + 1) fl
                (Function.update core i (lo ||| ((hi <<< 8) % 0x10000))) := by
            rw [load_go]
            simp only [getb]
            rw [if_neg hno]
          rw [hgo]
          refine ⟨by rw [hrec.1]; omega, fun j => ?_⟩
          rw [hrec.2 j]
          have hcells : cells (lo :: hi :: rest) =
              (lo ||| ((hi <<< 8) % 0x10000)) :: cells rest := by
            rw [cells]
          by_cases hj1 : j = i
          · subst hj1
            have hc1 : ¬ (j + 1 ≤ j ∧ j < j + 1 + k) := by omega
            have hc2 : j ≤ j ∧ j < j + (k + 1) := by omega
            rw [if_neg hc1, if_pos hc2, hcells]
            simp
          · by_cases hj2 : i + 1 ≤ j ∧ j < i + 1 + k
            · have hc2 : i ≤ j ∧ j < i + (k + 1) := by omega
              rw [if_pos hj2, if_pos hc2, hcells]
              have hji : j - i = (j - (i + 1)) + 1 := by omega
              rw [hji]
              simp
            · have hc2 : ¬ (i ≤ j ∧ j < i + (k + 1)) := by omega
              rw [if_neg hj2, if_neg hc2]
              exact Function.update_noteq hj1 _ _

/-- Characterization of `load`: registers reset, the denoted cells stored
from cell 0, count returned, all trailing cells untouched. -/
theorem VM_load_spec (vm : VM) (inp : List Nat) (k : Nat)
    (hb : ∀ b ∈ inp, b < 0x100)
    (hlen : inp.length = 2 * k ∨ inp.length = 2 * k + 1)
    (hk : k ≤ CORE_SIZE) :
    (VM.load vm inp).2 = k ∧
    (VM.load vm inp).1.pc = 0 ∧ (VM.load vm inp).1.rp = RP0 ∧
    (VM.load vm inp).1.sp = SP0 ∧ (VM.load vm inp).1.t = 0 ∧
    (∀ j, j < k → (VM.load vm inp).1.core j = (cells inp).getD j 0) ∧
    (∀ j, k ≤ j → (VM.load vm inp).1.core j = vm.core j) := by
  have hspec := load_go_spec k inp 0 CORE_SIZE vm.core hlen hb hk
  refine ⟨?_, rfl, rfl, rfl, rfl, fun j hj => ?_, fun j hj => ?_⟩
  · show (load_go inp 0 CORE_SIZE vm.core).2 = k
    rw [hspec.1]
    omega
  · show (load_go inp 0 CORE_SIZE vm.core).1 j = (cells inp).getD j 0
    rw [hspec.2 j, if_pos (by omega)]
    simp
  · show (load_go inp 0 CORE_SIZE vm.core).1 j = vm.core j
    rw [hspec.2 j, if_neg (by omega)]

/-- Claim C6, amended: for a stream of exactly `2k` bytes (`k < CORE_SIZE`)
— or of odd length `2k + 1`, whose final partial cell is never stored —
`load` resets the registers, stores `(hi << 8) | lo` into cells `0..k` and
returns `k`; the trailing cells from `k` up to `CORE_SIZE` are **not**
zeroed but keep the values they had before the call. -/
theorem load_stores_pairs (vm : VM) (inp : List Nat) (k : Nat)
    (hb : ∀ b ∈ inp, b < 0x100)
    (hlen : inp.length = 2 * k ∨ inp.length = 2 * k + 1)
    (hk : k < CORE_SIZE) :
    (VM.load vm inp).2 = k ∧
    (VM.load vm inp).1.pc = 0 ∧ (VM.load vm inp).1.rp = RP0 ∧
    (VM.load vm inp).1.sp = SP0 ∧ (VM.load vm inp).1.t = 0 ∧
    (∀ j, j < k → (VM.load vm inp).1.core j = (cells inp).getD j 0) ∧
    (∀ j, k ≤ j → (VM.load vm inp).1.core j = vm.core j) :=
  VM_load_spec vm inp k hb hlen (Nat.le_of_lt hk)

/-- Witness for `load_stores_pairs`: a 3-byte stream loads one cell
(`0x1234`), returns 1, drops the trailing byte, and cell 1 keeps its old
value 3. -/
theorem load_stores_pairs_witness :
    ((0x34 : Nat) < 0x100 ∧ ([0x34, 0x12, 0x01] : List Nat).length = 2 * 1 + 1) ∧
    ((VM.load ⟨9, 9, 9, 9, fun _ => 3⟩ [0x34, 0x12, 0x01]).2 = 1 ∧
     (VM.load ⟨9, 9, 9, 9, fun _ => 3⟩ [0x34, 0x12, 0x01]).1.pc = 0 ∧
     (VM.load ⟨9, 9, 9, 9, fun _ => 3⟩ [0x34, 0x12, 0x01]).1.rp = RP0 ∧
     (VM.load ⟨9, 9, 9, 9, fun _ => 3⟩ [0x34, 0x12, 0x01]).1.sp = SP0 ∧
     (VM.load ⟨9, 9, 9, 9, fun _ => 3⟩ [0x34, 0x12, 0x01]).1.t = 0 ∧
     (∀ j, j < 1 →
       (VM.load ⟨9, 9, 9, 9, fun _ => 3⟩ [0x34, 0x12, 0x01]).1.core j =
         (cells [0x34, 0x12, 0x01]).getD j 0) ∧
     (∀ j, 1 ≤ j →
       (VM.load ⟨9, 9, 9, 9, fun _ => 3⟩ [0x34, 0x12, 0x01]).1.core j =
         (fun _ : Nat => 3) j)) :=
  ⟨⟨by decide, by decide⟩,
    load_stores_pairs ⟨9, 9, 9, 9, fun _ => 3⟩ [0x34, 0x12, 0x01] 1
      (by decide) (Or.inr (by decide)) (by decide)⟩

/-- With an error-free sink and the whole range in bounds, the save loop
succeeds and writes exactly the little-endian serialization. -/
theorem save_cells_ok {core : Nat → Nat} :
    ∀ (n i : Nat), i + n ≤ CORE_SIZE →
      save_cells core (fun _ => false) i n = some (some 0, byteSer core i n) := by
  intro n
  induction n with
  | zero => intro i h; rfl
  | succ nn ih =>
    intro i h
    rw [save_cells, if_pos (by omega)]
    simp only [Bool.false_eq_true, if_false]
    rw [ih (i + 1) (by omega)]
    rfl

/-- The serialization of `n` cells is `2n` bytes long. -/
theorem byteSer_length {core : Nat → Nat} :
    ∀ (n i : Nat), (byteSer core i n).length = 2 * n := by
  intro n
  induction n with
  | zero => intro i; rfl
  | succ nn ih =>
    intro i
    rw [byteSer]
    simp [ih (i + 1)]
    omega

/-- Every serialized byte is below 256. -/
theorem byteSer_bytes {core : Nat → Nat} :
    ∀ (n i : Nat), ∀ b ∈ byteSer core i n, b < 0x100 := by
  intro n
  induction n with
  | zero => intro i b hb; cases hb
  | succ nn ih =>
    intro i b hb
    rw [byteSer] at hb
    rcases List.mem_cons.mp hb with hb | hb
    · exact hb ▸ Nat.mod_lt _ (by norm_num)
    · rcases List.mem_cons.mp hb with hb | hb
      · exact hb ▸ Nat.mod_lt _ (by norm_num)
      · exact ih (i + 1) b hb

/-- Reassembling the low byte and the high byte of a 16-bit cell gives the
cell back. -/
theorem lor_lo_hi {c : Nat} (hc : c < 0x10000) :
    (c % 0x100) ||| ((((c >>> 8) % 0x100) <<< 8) % 0x10000) = c := by
  have hsh : c >>> 8 < 0x100 := by
    rw [Nat.shiftRight_eq_div_pow]
    omega
  have h1 : (c >>> 8) % 0x100 = c >>> 8 := Nat.mod_eq_of_lt hsh
  have h2 : (c >>> 8) <<< 8 < 0x10000 := by
    rw [Nat.shiftLeft_eq]
    omega
  rw [h1, Nat.mod_eq_of_lt h2]
  apply Nat.eq_of_testBit_eq
  intro idx
  rw [Nat.testBit_lor, Nat.testBit_shiftLeft, Nat.testBit_shiftRight]
  have h256 : (0x100 : Nat) = 2 ^ 8 := by norm_num
  rw [h256, Nat.testBit_mod_two_pow]
  by_cases hidx : idx < 8
  · have hge : ¬ idx ≥ 8 := by omega
    simp [hidx, hge]
  · have hge : idx ≥ 8 := by omega
    have h8 : 8 + (idx - 8) = idx := by omega
    simp [hidx, hge, h8]

/-- The cell stream denoted by a serialization is the original cell
sequence. -/
theorem cells_byteSer_getD {core : Nat → Nat} (hc : ∀ x, core x < 0x10000) :
    ∀ (n i j : Nat), j < n → (cells (byteSer core i n)).getD j 0 = core (i + j) := by
  intro n
  induction n with
  | zero => intro i j hj; omega
  | succ nn ih =>
    intro i j hj
    rw [byteSer, cells]
    cases j with
    | zero =>
      simp only [List.getD_cons_zero]
      rw [lor_lo_hi (hc i), Nat.add_zero]
    | succ jj =>
      simp only [List.getD_cons_succ]
      rw [ih (i + 1) jj (by omega)]
      congr 1
      omega

/-- Claim C10: saving the whole core of a machine at the reset register
values and loading the result back is the identity on all `CORE_SIZE`
cells, and the load returns `CORE_SIZE`. -/
theorem save_load_roundtrip (vm : VM)
    (hpc : vm.pc = 0) (hrp : vm.rp = RP0) (hsp : vm.sp = SP0) (ht : vm.t = 0)
    (hc : ∀ i, vm.core i < 0x10000) :
    VM.save vm (fun _ => false) = some (some 0, byteSer vm.core 0 CORE_SIZE) ∧
    (VM.load vm (byteSer vm.core 0 CORE_SIZE)).2 = CORE_SIZE ∧
    (∀ i, i < CORE_SIZE →
      (VM.load vm (byteSer vm.core 0 CORE_SIZE)).1.core i = vm.core i) ∧
    (VM.load vm (byteSer vm.core 0 CORE_SIZE)).1.pc = vm.pc ∧
    (VM.load vm (byteSer vm.core 0 CORE_SIZE)).1.rp = vm.rp ∧
    (VM.load vm (byteSer vm.core 0 CORE_SIZE)).1.sp = vm.sp ∧
    (VM.load vm (byteSer vm.core 0 CORE_SIZE)).1.t = vm.t := by
  have hload := VM_load_spec vm (byteSer vm.core 0 CORE_SIZE) CORE_SIZE
    (byteSer_bytes CORE_SIZE 0)
    (Or.inl (byteSer_length CORE_SIZE 0))
    (Nat.le_refl _)
  obtain ⟨hcount, hldpc, hldrp, hldsp, hldt, hstored, _⟩ := hload
  refine ⟨?_, hcount, fun i hi => ?_, ?_, ?_, ?_, ?_⟩
  · rw [VM.save, save_block, if_neg (by norm_num [CORE_SIZE])]
    rw [Nat.sub_zero]
    exact save_cells_ok CORE_SIZE 0 (by omega)
  · rw [hstored i hi, cells_byteSer_getD hc CORE_SIZE 0 i hi, Nat.zero_add]
  · rw [hldpc, hpc]
  · rw [hldrp, hrp]
  · rw [hldsp, hsp]
  · rw [hldt, ht]

/-- Witness for `save_load_roundtrip`: the all-zero core at reset registers
round-trips. -/
theorem save_load_roundtrip_witness :
    ((⟨0, RP0, SP0, 0, fun _ => 0⟩ : VM).pc = 0 ∧ (∀ _i : Nat, (0 : Nat) < 0x10000)) ∧
    (VM.save ⟨0, RP0, SP0, 0, fun _ => 0⟩ (fun _ => false) =
      some (some 0, byteSer (⟨0, RP0, SP0, 0, fun _ => 0⟩ : VM).core 0 CORE_SIZE) ∧
     (VM.load ⟨0, RP0, SP0, 0, fun _ => 0⟩
        (byteSer (⟨0, RP0, SP0, 0, fun _ => 0⟩ : VM).core 0 CORE_SIZE)).2 = CORE_SIZE ∧
     (∀ i, i < CORE_SIZE →
       (VM.load ⟨0, RP0, SP0, 0, fun _ => 0⟩
          (byteSer (⟨0, RP0, SP0, 0, fun _ => 0⟩ : VM).core 0 CORE_SIZE)).1.core i =
         (⟨0, RP0, SP0, 0, fun _ => 0⟩ : VM).core i) ∧
     (VM.load ⟨0, RP0, SP0, 0, fun _ => 0⟩
        (byteSer (⟨0, RP0, SP0, 0, fun _ => 0⟩ : VM).core 0 CORE_SIZE)).1.pc = 0 ∧
     (VM.load ⟨0, RP0, SP0, 0, fun _ => 0⟩
        (byteSer (⟨0, RP0, SP0, 0, fun _ => 0⟩ : VM).core 0 CORE_SIZE)).1.rp = RP0 ∧
     (VM.load ⟨0, RP0, SP0, 0, fun _ => 0⟩
        (byteSer (⟨0, RP0, SP0, 0, fun _ => 0⟩ : VM).core 0 CORE_SIZE)).1.sp = SP0 ∧
     (VM.load ⟨0, RP0, SP0, 0, fun _ => 0⟩
        (byteSer (⟨0, RP0, SP0, 0, fun _ => 0⟩ : VM).core 0 CORE_SIZE)).1.t = 0) :=
  ⟨⟨rfl, fun _ => by decide⟩,
    save_load_roundtrip ⟨0, RP0, SP0, 0, fun _ => 0⟩ rfl rfl rfl rfl
      (fun _ => by show (0 : Nat) < 0x10000; decide)⟩

/-- Claim C7, counterexample: with `start = 0x7ffe` and `length = 0x8001`
the range check `start + length ≤ 0xffff` passes (sum is exactly 0xffff),
the sink never errs, yet `save_block` does not return `Some(0)`: the loop
indexes `core[0x8000]`, out of bounds for the 0x8000-cell core, and the
host faults. -/
theorem save_block_oob_faults :
    ((0x7ffe : Nat) + 0x8001 ≤ 0xffff) ∧
    save_block (fun _ => 0) (fun _ => false) 0x7ffe 0x8001 = none :=
  ⟨by decide, rfl⟩

/-- The save loop with every sink write in range succeeding. -/
theorem save_cells_ok_of_err_free {core : Nat → Nat} {err : Nat → Bool} :
    ∀ (n i : Nat), i + n ≤ CORE_SIZE → (∀ x, i ≤ x → x < i + n → err x = false) →
      save_cells core err i n = some (some 0, byteSer core i n) := by
  intro n
  induction n with
  | zero => intro i hb he; rfl
  | succ nn ih =>
    intro i hb he
    rw [save_cells, if_pos (by omega)]
    rw [he i (Nat.le_refl i) (by omega)]
    simp only [Bool.false_eq_true, if_false]
    rw [ih (i + 1) (by omega) (fun x hx1 hx2 => he x (by omega) (by omega))]
    rfl

/-- The save loop stopped by the first failing sink write: the Rust-level
result is `None` and exactly the cells before the failing one reached the
sink. -/
theorem save_cells_err_at {core : Nat → Nat} {err : Nat → Bool} :
    ∀ (n i j : Nat), i ≤ j → j < i + n → i + n ≤ CORE_SIZE → err j = true →
      (∀ x, i ≤ x → x < j → err x = false) →
      save_cells core err i n = some (none, byteSer core i (j - i)) := by
  intro n
  induction n with
  | zero => intro i j h1 h2; omega
  | succ nn ih =>
    intro i j h1 h2 hb hj he
    rw [save_cells, if_pos (by omega)]
    by_cases hij : i = j
    · subst hij
      rw [hj]
      simp only [if_true]
      have h0 : i - i = 0 := by omega
      rw [h0, byteSer]
    · rw [he i (Nat.le_refl i) (by omega)]
      simp only [Bool.false_eq_true, if_false]
      rw [ih (i + 1) j (by omega) (by omega) (by omega) hj
        (fun x hx1 hx2 => he x (by omega) hx2)]
      have hji : j - i = (j - (i + 1)) + 1 := by omega
      rw [hji, byteSer]
      rfl

/-- Claim C7, amended: `save_block` behaves as claimed **provided the end
index `length` stays within the 0x8000-cell core**: for `start + length ≤
0xffff` it writes exactly the cells with indices in `start..length`
(`length` is an end index, so `length ≤ start` writes zero cells and still
succeeds), each as low then high byte, returning `Some(0)`; it returns the
Rust `None` on a range violation or when the sink errs (having written the
cells before the failing write).  For `length > 0x8000` (still within the
range check) the loop instead indexes the core out of bounds and the host
faults, as `save_block_oob_faults` shows. -/
theorem save_block_spec (core : Nat → Nat) (err : Nat → Bool) (start length : Nat)
    (hlen : length ≤ CORE_SIZE) :
    (start + length > 0xffff → save_block core err start length = some (none, [])) ∧
    ((start + length ≤ 0xffff ∧ ∀ i, start ≤ i → i < length → err i = false) →
      save_block core err start length =
        some (some 0, byteSer core start (length - start))) ∧
    (∀ j, start + length ≤ 0xffff → start ≤ j → j < length → err j = true →
      (∀ i, start ≤ i → i < j → err i = false) →
      save_block core err start length =
        some (none, byteSer core start (j - start))) := by
  refine ⟨fun hr => ?_, fun ⟨hr, he⟩ => ?_, fun j hr hj1 hj2 hj3 he => ?_⟩
  · rw [save_block, if_pos hr]
  · rw [save_block, if_neg (by omega)]
    by_cases hls : length ≤ start
    · have h0 : length - start = 0 := by omega
      rw [h0, byteSer]
      rfl
    · exact save_cells_ok_of_err_free (length - start) start (by omega)
        (fun x hx1 hx2 => he x hx1 (by omega))
  · rw [save_block, if_neg (by omega)]
    exact save_cells_err_at (length - start) start j hj1 (by omega) (by omega) hj3
      (fun x hx1 hx2 => he x hx1 hx2)

/-- Witness for `save_block_spec`: two cells starting at 2 with an
error-free sink serialize little-endian and return `Some(0)`. -/
theorem save_block_spec_witness :
    ((4 : Nat) ≤ CORE_SIZE) ∧
    (((2 : Nat) + 4 > 0xffff →
        save_block (fun _ => 0x1234) (fun _ => false) 2 4 = some (none, [])) ∧
     (((2 : Nat) + 4 ≤ 0xffff ∧ ∀ i, 2 ≤ i → i < 4 → (fun _ : Nat => false) i = false) →
        save_block (fun _ => 0x1234) (fun _ => false) 2 4 =
          some (some 0, byteSer (fun _ => 0x1234) 2 (4 - 2))) ∧
     (∀ j, (2 : Nat) + 4 ≤ 0xffff → 2 ≤ j → j < 4 → (fun _ : Nat => false) j = true →
        (∀ i, 2 ≤ i → i < j → (fun _ : Nat => false) i = false) →
        save_block (fun _ => 0x1234) (fun _ => false) 2 4 =
          some (none, byteSer (fun _ => 0x1234) 2 (j - 2)))) :=
  ⟨by decide, save_block_spec (fun _ => 0x1234) (fun _ => false) 2 4 (by decide)⟩
